import Mathlib

/-!
Verification of the pacopy repository against its specification.

The repository ships `setup.py` (packaging) and, per the spec, a numerical
continuation core (predictor, corrector, step controller, bifurcation
monitor, driver).  `setup.py` is embedded directly; the continuation core
is not present in the source tree, so it is modelled from the spec
(definitions carry a `Modelled from the spec:` doc comment) and the claims
about it are settled against that model.  Scalars are modelled as exact
rationals.
-/

namespace Pacopy

/-! ## Embedding of `setup.py` -/

/-- The dictionary produced by `exec`-ing `pacopy/__about__.py`:
an association list from names to (string) values. -/
def dictGet (d : List (String × String)) (k : String) : Option String :=
  match d with
  | [] => none
  | (k', v) :: rest => if k' = k then some v else dictGet rest k

/-- The keyword arguments that `setup.py` passes to `setup(...)`,
with the literal constants from the source. -/
structure SetupArgs where
  name : String
  version : String
  url : String
  author : String
  authorEmail : String
  installRequires : List String
  pythonRequires : String
  description : String
  license : String
  classifiers : List String
  deriving DecidableEq, Repr

/-- Outcome of running `setup.py`: the `open` of `pacopy/__about__.py`
raises `FileNotFoundError` when the file is absent; a missing dict key
raises `KeyError` while the `setup(...)` arguments are evaluated;
otherwise `setup` is called with the assembled arguments. -/
inductive SetupOutcome where
  | fileNotFound : SetupOutcome
  | keyError : String → SetupOutcome
  | ok : SetupArgs → SetupOutcome
  deriving DecidableEq, Repr

/-- Embedding of `setup.py`: `about` is the dict obtained by exec-ing
`pacopy/__about__.py` (or `none` when the file does not exist).  The
`about[...]` subscripts are evaluated in the textual order of the call:
`__version__`, `__author__`, `__email__`, `__license__` (used twice),
`__status__`; the first missing key raises `KeyError`. -/
def runSetupPy (aboutFile : Option (List (String × String))) : SetupOutcome :=
  match aboutFile with
  | none => .fileNotFound
  | some about =>
    match dictGet about "__version__" with
    | none => .keyError "__version__"
    | some ver =>
      match dictGet about "__author__" with
      | none => .keyError "__author__"
      | some auth =>
        match dictGet about "__email__" with
        | none => .keyError "__email__"
        | some em =>
          match dictGet about "__license__" with
          | none => .keyError "__license__"
          | some lic =>
            match dictGet about "__status__" with
            | none => .keyError "__status__"
            | some st =>
              .ok
                { name := "pacopy"
                  version := ver
                  url := "https://github.com/nschloe/pacopy"
                  author := auth
                  authorEmail := em
                  installRequires := []
                  pythonRequires := ">=3.6"
                  description := "Numerical continuation in Python"
                  license := lic
                  classifiers :=
                    [lic, st,
                     "Operating System :: OS Independent",
                     "Programming Language :: Python",
                     "Programming Language :: Python :: 3",
                     "Topic :: Scientific/Engineering",
                     "Topic :: Scientific/Engineering :: Mathematics"] }

/-- The first of the five required `__about__.py` keys that is missing
from the exec-ed dict, in the order `setup.py` reads them. -/
def firstMissingKey (about : List (String × String)) : Option String :=
  if (dictGet about "__version__").isNone then some "__version__"
  else if (dictGet about "__author__").isNone then some "__author__"
  else if (dictGet about "__email__").isNone then some "__email__"
  else if (dictGet about "__license__").isNone then some "__license__"
  else if (dictGet about "__status__").isNone then some "__status__"
  else none

end Pacopy

namespace Pacopy

/-! ## Spec-modelled continuation core

The package's computational logic (`pacopy/*.py` apart from packaging) is
not in the source tree; the definitions below are modelled from the spec:
driver configuration (spec §6), step controller (spec §4.3), natural-mode
predictor (spec §4.2), Newton corrector (spec §4.1), continuation driver
loop (spec §4.5), pseudo-arclength tangent (spec §3, §4.2) and
bifurcation monitor (spec §4.4). -/

/-- Modelled from the spec: the driver's immutable run configuration
(spec §6, "Driver configuration"), natural mode. -/
structure Config where
  maxSteps : ℕ
  step0 : ℚ
  stepMin : ℚ
  stepMax : ℚ
  growFactor : ℚ
  shrinkFactor : ℚ
  correctorTol : ℚ
  correctorMaxIter : ℕ
  targetIter : ℕ
  lamMax : Option ℚ
  deriving DecidableEq, Repr

/-- Modelled from the spec: an accepted point on the branch (spec §3,
"Point"): state vector `u` (parameterized over the caller's vector
type) and parameter value `lam`. -/
structure Point (U : Type) where
  u : U
  lam : ℚ
  deriving DecidableEq, Repr

/-- Modelled from the spec: the value returned per correction attempt
(spec §3, "CorrectorResult"): converged flag, iteration count and the
final iterate. -/
structure CorrectorResult (U : Type) where
  converged : Bool
  iterations : ℕ
  u : U
  deriving DecidableEq, Repr

/-- Modelled from the spec: how a continuation run terminates (spec §7
and §4.5); `outOfFuel` is an artifact of the bounded-recursion embedding
of the driver loop and never occurs for sufficient fuel. -/
inductive RunStatus where
  | stepSizeExhausted : RunStatus
  | maxStepsReached : RunStatus
  | parameterBoundReached : RunStatus
  | outOfFuel : RunStatus
  deriving DecidableEq, Repr

/-- Modelled from the spec: step growth on easy convergence (spec §4.3):
multiply by the growth factor, clamp to `Δ_max`. -/
def growStep (cfg : Config) (d : ℚ) : ℚ :=
  if d * cfg.growFactor ≤ cfg.stepMax then d * cfg.growFactor
  else cfg.stepMax

/-- Modelled from the spec: step shrink on corrector failure (spec §4.3):
multiply by the shrink factor, clamp to `Δ_min`. -/
def shrinkStep (cfg : Config) (d : ℚ) : ℚ :=
  if d * cfg.shrinkFactor ≤ cfg.stepMin then cfg.stepMin
  else d * cfg.shrinkFactor

/-- Modelled from the spec: the natural-mode predictor (spec §4.2):
`λ_new = λ_prev + Δ`, `u` initial guess `= u_prev`. -/
def predictNatural {U : Type} (prev : Point U) (d : ℚ) : Point U :=
  ⟨prev.u, prev.lam + d⟩

/-- Outcome of one driver iteration: accept the corrected point with the
adapted step size, retry the step with a shrunk step size, or fail
because the step size is exhausted. -/
inductive StepOutcome (U : Type) where
  | accepted : Point U → ℚ → StepOutcome U
  | retry : ℚ → StepOutcome U
  | exhausted : StepOutcome U
  deriving DecidableEq, Repr

/-- Modelled from the spec: one iteration of the driver loop in natural
mode (spec §4.5): the Predictor produces a candidate, the Corrector is
run on it with `λ` held fixed; on convergence the point is accepted and
the step grows (within the target iteration count) or holds; on failure
the step shrinks and the step is retried, unless `Δ` is already at
`Δ_min`, which exhausts the step size (spec §4.3). -/
def driverStep {U : Type} (cfg : Config)
    (correct : U → ℚ → CorrectorResult U) (prev : Point U) (d : ℚ) :
    StepOutcome U :=
  let cand := predictNatural prev d
  let r := correct cand.u cand.lam
  if r.converged then
    .accepted ⟨r.u, cand.lam⟩
      (if r.iterations ≤ cfg.targetIter then growStep cfg d else d)
  else if d ≤ cfg.stepMin then .exhausted
  else .retry (shrinkStep cfg d)

/-- Modelled from the spec: the continuation driver loop in natural mode
(spec §4.5), as a fuel-bounded recursion.  Returns the accepted points in
order, the trace of step sizes after every grow/hold/shrink operation,
and the termination status.  Termination conditions are checked after
each accepted step: step count at `max_steps`, `λ` crossing the bound,
or step-size exhaustion. -/
def naturalRun {U : Type} (cfg : Config)
    (correct : U → ℚ → CorrectorResult U) :
    ℕ → Point U → ℚ → ℕ → (List (Point U) × List ℚ × RunStatus)
  | 0, _, _, _ => ([], [], .outOfFuel)
  | fuel + 1, prev, d, steps =>
    if cfg.maxSteps ≤ steps then ([], [], .maxStepsReached)
    else
      match driverStep cfg correct prev d with
      | .accepted p d' =>
        if (match cfg.lamMax with
            | some b => decide (b ≤ p.lam)
            | none => false) then
          ([p], [d'], .parameterBoundReached)
        else
          let rest := naturalRun cfg correct fuel p d' (steps + 1)
          (p :: rest.1, d' :: rest.2.1, rest.2.2)
      | .retry d' =>
        let rest := naturalRun cfg correct fuel prev d' steps
        (rest.1, d' :: rest.2.1, rest.2.2)
      | .exhausted => ([], [], .stepSizeExhausted)

/-- Modelled from the spec: the caller-supplied Problem Adapter (spec §6):
residual, Jacobian solve, parameter derivative, norm, inner product, and
the vector-space operations the Newton update needs. -/
structure Problem (U : Type) where
  residual : U → ℚ → U
  solveJacobian : U → ℚ → U → U
  dResidualDLambda : U → ℚ → U
  norm : U → ℚ
  inner : U → U → ℚ
  sub : U → U → U

/-- Modelled from the spec: the natural-mode Newton corrector iteration
(spec §4.1): with `λ` held fixed, solve the linearized residual equation
for the Newton update, apply it, and repeat until the residual norm (in
the caller-supplied norm) falls below the tolerance or the iteration
budget is exhausted; non-convergence is reported in the `converged`
flag, not as an exception. -/
def newtonLoop {U : Type} (P : Problem U) (lam tol : ℚ) :
    ℕ → U → ℕ → CorrectorResult U
  | 0, u, k =>
    ⟨decide (P.norm (P.residual u lam) < tol), k, u⟩
  | budget + 1, u, k =>
    if P.norm (P.residual u lam) < tol then ⟨true, k, u⟩
    else
      newtonLoop P lam tol budget
        (P.sub u (P.solveJacobian u lam (P.residual u lam))) (k + 1)

/-- Modelled from the spec: the corrector entry point
`correct(predicted_point, max_iterations, tolerance)` (spec §4.1). -/
def newtonCorrect {U : Type} (P : Problem U) (maxIter : ℕ) (tol : ℚ)
    (u0 : U) (lam : ℚ) : CorrectorResult U :=
  newtonLoop P lam tol maxIter u0 0

/-- Modelled from the spec: a direction `(du, dλ)` in the augmented
`(u, λ)` space, used in pseudo-arclength mode (spec §3, "Tangent"). -/
structure Tangent (U : Type) where
  du : U
  dlam : ℚ
  deriving DecidableEq, Repr

/-- Modelled from the spec: the arclength-weighted inner product of two
tangents, built from the caller-supplied inner product on the state
space (spec §3 and §6): `⟨t, t'⟩ = inner(du, du') + dλ·dλ'`. -/
def tangentInner {U : Type} (inner : U → U → ℚ)
    (t t' : Tangent U) : ℚ :=
  inner t.du t'.du + t.dlam * t'.dlam

/-- Modelled from the spec: re-normalization of a freshly solved tangent
(spec §4.2): divide both components by its arclength-weighted norm `n`,
supplied by the caller's norm function. -/
def normalizeTangent {U : Type} (smul : ℚ → U → U) (n : ℚ)
    (t : Tangent U) : Tangent U :=
  ⟨smul (1 / n) t.du, t.dlam / n⟩

/-- Modelled from the spec: the tangents stored over a pseudo-arclength
run — one per accepted point, recomputed each accepted step by solving
the augmented linear system (`solveT`) at the new point and
re-normalizing by the caller-supplied norm (spec §3, §4.2). -/
def storedTangents {U : Type} (smul : ℚ → U → U)
    (solveT : Point U → Tangent U) (normT : Tangent U → ℚ)
    (pts : List (Point U)) : List (Tangent U) :=
  pts.map fun p => normalizeTangent smul (normT (solveT p)) (solveT p)

/-- Modelled from the spec: the sign of the scalar test function
tracked by the Bifurcation Monitor (spec §4.4). -/
def qsign (x : ℚ) : Int :=
  if x < 0 then -1 else if x = 0 then 0 else 1

/-- Modelled from the spec: the bracketing pair of accepted points
reported when the test function changes sign (spec §3,
"BifurcationEvent"). -/
structure BifurcationEvent (U : Type) where
  prev : Point U
  next : Point U
  deriving DecidableEq, Repr

/-- Modelled from the spec: one step of the Bifurcation Monitor
(spec §4.4): after a newly accepted point, compute `g_new`; emit an
event bracketing `(point_prev, point_new)` exactly when `g_prev` is
defined and `sign(g_new) ≠ sign(g_prev)`; always store `g_new` as the
new previous value. -/
def monitorStep {U : Type} (gPrev : Option ℚ) (pPrev pNew : Point U)
    (gNew : ℚ) : Option (BifurcationEvent U) × Option ℚ :=
  match gPrev with
  | none => (none, some gNew)
  | some g =>
    (if qsign gNew ≠ qsign g then some ⟨pPrev, pNew⟩ else none, some gNew)

/-- The one-dimensional linear problem `f(u, λ) = u − λ` of spec §8,
with the Euclidean norm and inner product and the exact Jacobian solve
(`J = 1`). -/
def linProblem : Problem ℚ where
  residual := fun u lam => u - lam
  solveJacobian := fun _ _ rhs => rhs
  dResidualDLambda := fun _ _ => -1
  norm := fun x => if x < 0 then -x else x
  inner := fun x y => x * y
  sub := fun a b => a - b

/-- The driver configuration of the spec §8 linear test: fixed step
`Δ = 1/10` (growth clamps at `Δ_max = 1/10`), ten steps. -/
def cfgLinear : Config where
  maxSteps := 10
  step0 := 1/10
  stepMin := 1/100
  stepMax := 1/10
  growFactor := 2
  shrinkFactor := 1/2
  correctorTol := 1/1000000
  correctorMaxIter := 5
  targetIter := 3
  lamMax := none

/-- A configuration with room for step growth (`Δ_max` above
`Δ_0·growth`), used to exercise the adaptive step size. -/
def cfgRestart : Config where
  maxSteps := 2
  step0 := 1/10
  stepMin := 1/100
  stepMax := 1
  growFactor := 2
  shrinkFactor := 1/2
  correctorTol := 1/1000000
  correctorMaxIter := 5
  targetIter := 3
  lamMax := none

/-- An integer-valued configuration used by concrete witnesses. -/
def cfgGrow : Config where
  maxSteps := 2
  step0 := 2
  stepMin := 1
  stepMax := 4
  growFactor := 2
  shrinkFactor := 1
  correctorTol := 1
  correctorMaxIter := 1
  targetIter := 1
  lamMax := none

/-- A corrector stub that always converges in one iteration and keeps
the predicted state, used by concrete witnesses. -/
def convergeStub : ℚ → ℚ → CorrectorResult ℚ := fun u _ => ⟨true, 1, u⟩

/-- The expected accepted points of the spec §8 linear test: `k` further
points on the diagonal `u = λ`, spaced `1/10` apart, starting after
`x`. -/
def linPoints : ℚ → ℕ → List (Point ℚ)
  | _, 0 => []
  | x, k + 1 => ⟨x + 1/10, x + 1/10⟩ :: linPoints (x + 1/10) k

/-- A problem whose residual is identically 1, so that no correction
attempt can ever bring the residual below a tolerance under 1. -/
def oneProblem : Problem ℚ where
  residual := fun _ _ => 1
  solveJacobian := fun _ _ rhs => rhs
  dResidualDLambda := fun _ _ => 0
  norm := fun x => if x < 0 then -x else x
  inner := fun x y => x * y
  sub := fun a b => a - b

end Pacopy

namespace Pacopy

/-! ### Step controller and driver lemmas -/

theorem growStep_bounds (cfg : Config) (d : ℚ)
    (hmm : cfg.stepMin ≤ cfg.stepMax) (hg : 1 ≤ cfg.growFactor)
    (h0 : 0 ≤ d) (h1 : cfg.stepMin ≤ d) :
    cfg.stepMin ≤ growStep cfg d ∧ growStep cfg d ≤ cfg.stepMax := by
  unfold growStep
  split
  · rename_i hle
    exact ⟨le_trans h1 (le_mul_of_one_le_right h0 hg), hle⟩
  · exact ⟨hmm, le_refl _⟩

theorem shrinkStep_bounds (cfg : Config) (d : ℚ)
    (hmm : cfg.stepMin ≤ cfg.stepMax) (hs1 : cfg.shrinkFactor ≤ 1)
    (h0 : 0 ≤ d) (h2 : d ≤ cfg.stepMax) :
    cfg.stepMin ≤ shrinkStep cfg d ∧ shrinkStep cfg d ≤ cfg.stepMax := by
  unfold shrinkStep
  split
  · exact ⟨le_refl _, hmm⟩
  · rename_i hgt
    exact ⟨le_of_lt (lt_of_not_le hgt),
           le_trans (mul_le_of_le_one_right h0 hs1) h2⟩

theorem driverStep_accepted_inv {U : Type} {cfg : Config}
    {correct : U → ℚ → CorrectorResult U} {prev p : Point U} {d d' : ℚ}
    (h : driverStep cfg correct prev d = .accepted p d') :
    p = ⟨(correct prev.u (prev.lam + d)).u, prev.lam + d⟩ ∧
      (d' = growStep cfg d ∨ d' = d) ∧
      (correct prev.u (prev.lam + d)).converged = true := by
  simp only [driverStep, predictNatural] at h
  split at h
  · rename_i hc
    rw [StepOutcome.accepted.injEq] at h
    refine ⟨h.1.symm, ?_, hc⟩
    rcases h with ⟨-, h2⟩
    split at h2
    · exact Or.inl h2.symm
    · exact Or.inr h2.symm
  · split at h <;> exact StepOutcome.noConfusion h

theorem driverStep_retry_inv {U : Type} {cfg : Config}
    {correct : U → ℚ → CorrectorResult U} {prev : Point U} {d d' : ℚ}
    (h : driverStep cfg correct prev d = .retry d') :
    d' = shrinkStep cfg d ∧ cfg.stepMin < d ∧
      (correct prev.u (prev.lam + d)).converged = false := by
  simp only [driverStep, predictNatural] at h
  split at h
  · exact StepOutcome.noConfusion h
  · rename_i hc
    split at h
    · exact StepOutcome.noConfusion h
    · rename_i hmin
      rw [StepOutcome.retry.injEq] at h
      exact ⟨h.symm, lt_of_not_le hmin, Bool.not_eq_true _ ▸ Bool.of_not_eq_true hc⟩

theorem driverStep_exhausted_inv {U : Type} {cfg : Config}
    {correct : U → ℚ → CorrectorResult U} {prev : Point U} {d : ℚ}
    (h : driverStep cfg correct prev d = .exhausted) :
    d ≤ cfg.stepMin ∧ (correct prev.u (prev.lam + d)).converged = false := by
  simp only [driverStep, predictNatural] at h
  split at h
  · exact StepOutcome.noConfusion h
  · rename_i hc
    split at h
    · rename_i hmin
      exact ⟨hmin, Bool.of_not_eq_true hc⟩
    · exact StepOutcome.noConfusion h

theorem naturalRun_stop {U : Type} (cfg : Config)
    (correct : U → ℚ → CorrectorResult U) (fuel : ℕ) (prev : Point U)
    (d : ℚ) (steps : ℕ) (h : cfg.maxSteps ≤ steps) :
    naturalRun cfg correct (fuel + 1) prev d steps =
      ([], [], .maxStepsReached) := by
  rw [naturalRun, if_pos h]

theorem naturalRun_accept {U : Type} (cfg : Config)
    (correct : U → ℚ → CorrectorResult U) (fuel : ℕ) (prev p : Point U)
    (d d' : ℚ) (steps : ℕ)
    (hguard : ¬ cfg.maxSteps ≤ steps)
    (hstep : driverStep cfg correct prev d = .accepted p d')
    (hbound : cfg.lamMax = none) :
    naturalRun cfg correct (fuel + 1) prev d steps =
      (p :: (naturalRun cfg correct fuel p d' (steps + 1)).1,
       d' :: (naturalRun cfg correct fuel p d' (steps + 1)).2.1,
       (naturalRun cfg correct fuel p d' (steps + 1)).2.2) := by
  rw [naturalRun, if_neg hguard, hstep, hbound]
  rfl

/-- Claim C1: over every run of the driver, the step size stays inside
`[Δ_min, Δ_max]`: every value in the step-size trace (recorded after
every grow, hold, or shrink operation) lies in the configured interval,
provided the configuration is well-formed and the initial step is in
bounds. -/
theorem stepSize_stays_in_bounds {U : Type} (cfg : Config)
    (correct : U → ℚ → CorrectorResult U)
    (hmin0 : 0 ≤ cfg.stepMin) (hmm : cfg.stepMin ≤ cfg.stepMax)
    (hg : 1 ≤ cfg.growFactor) (hs1 : cfg.shrinkFactor ≤ 1) :
    ∀ (fuel : ℕ) (prev : Point U) (d : ℚ) (steps : ℕ),
      cfg.stepMin ≤ d → d ≤ cfg.stepMax →
      ∀ d' ∈ (naturalRun cfg correct fuel prev d steps).2.1,
        cfg.stepMin ≤ d' ∧ d' ≤ cfg.stepMax := by
  intro fuel
  induction fuel with
  | zero =>
    intro prev d steps h1 h2 d' hd'
    simp [naturalRun] at hd'
  | succ n ih =>
    intro prev d steps h1 h2 d' hd'
    have hd0 : 0 ≤ d := le_trans hmin0 h1
    rw [naturalRun] at hd'
    split at hd'
    · simp at hd'
    · cases hstep : driverStep cfg correct prev d with
      | accepted p d'' =>
        rw [hstep] at hd'
        have hacc := driverStep_accepted_inv hstep
        have hd'' : cfg.stepMin ≤ d'' ∧ d'' ≤ cfg.stepMax := by
          rcases hacc.2.1 with h | h
          · rw [h]; exact growStep_bounds cfg d hmm hg hd0 h1
          · rw [h]; exact ⟨h1, h2⟩
        dsimp only at hd'
        split at hd'
        · simp only [List.mem_singleton] at hd'
          rw [hd']; exact hd''
        · simp only [List.mem_cons] at hd'
          rcases hd' with rfl | hd'
          · exact hd''
          · exact ih p d'' (steps + 1) hd''.1 hd''.2 d' hd'
      | retry d'' =>
        rw [hstep] at hd'
        have hret := driverStep_retry_inv hstep
        have hd'' : cfg.stepMin ≤ d'' ∧ d'' ≤ cfg.stepMax := by
          rw [hret.1]; exact shrinkStep_bounds cfg d hmm hs1 hd0 h2
        dsimp only at hd'
        simp only [List.mem_cons] at hd'
        rcases hd' with rfl | hd'
        · exact hd''
        · exact ih prev d'' steps hd''.1 hd''.2 d' hd'
      | exhausted =>
        rw [hstep] at hd'
        simp at hd'

/-- Witness for C1: a concrete two-step run whose step-size trace
contains the first grown step, which lies inside the configured
bounds. -/
theorem stepSize_stays_in_bounds_witness :
    cfgGrow.stepMin ≤ growStep cfgGrow 2 ∧
      growStep cfgGrow 2 ≤ cfgGrow.stepMax := by
  have e1 : naturalRun cfgGrow convergeStub 3 (⟨0, 0⟩ : Point ℚ) 2 0 =
      ((⟨0, 0 + 2⟩ : Point ℚ) ::
        (naturalRun cfgGrow convergeStub 2 ⟨0, 0 + 2⟩
          (growStep cfgGrow 2) (0 + 1)).1,
       growStep cfgGrow 2 ::
        (naturalRun cfgGrow convergeStub 2 ⟨0, 0 + 2⟩
          (growStep cfgGrow 2) (0 + 1)).2.1,
       (naturalRun cfgGrow convergeStub 2 ⟨0, 0 + 2⟩
          (growStep cfgGrow 2) (0 + 1)).2.2) :=
    naturalRun_accept cfgGrow convergeStub 2 ⟨0, 0⟩ ⟨0, 0 + 2⟩ 2
      (growStep cfgGrow 2) 0 (by norm_num [cfgGrow]) rfl rfl
  have e2 : naturalRun cfgGrow convergeStub 2 (⟨0, 0 + 2⟩ : Point ℚ)
      (growStep cfgGrow 2) (0 + 1) =
      ((⟨0, 0 + 2 + growStep cfgGrow 2⟩ : Point ℚ) ::
        (naturalRun cfgGrow convergeStub 1 ⟨0, 0 + 2 + growStep cfgGrow 2⟩
          (growStep cfgGrow (growStep cfgGrow 2)) (0 + 1 + 1)).1,
       growStep cfgGrow (growStep cfgGrow 2) ::
        (naturalRun cfgGrow convergeStub 1 ⟨0, 0 + 2 + growStep cfgGrow 2⟩
          (growStep cfgGrow (growStep cfgGrow 2)) (0 + 1 + 1)).2.1,
       (naturalRun cfgGrow convergeStub 1 ⟨0, 0 + 2 + growStep cfgGrow 2⟩
          (growStep cfgGrow (growStep cfgGrow 2)) (0 + 1 + 1)).2.2) :=
    naturalRun_accept cfgGrow convergeStub 1 ⟨0, 0 + 2⟩
      ⟨0, 0 + 2 + growStep cfgGrow 2⟩ (growStep cfgGrow 2)
      (growStep cfgGrow (growStep cfgGrow 2)) (0 + 1)
      (by norm_num [cfgGrow]) rfl rfl
  have e3 : naturalRun cfgGrow convergeStub 1
      (⟨0, 0 + 2 + growStep cfgGrow 2⟩ : Point ℚ)
      (growStep cfgGrow (growStep cfgGrow 2)) (0 + 1 + 1) =
      ([], [], .maxStepsReached) :=
    naturalRun_stop cfgGrow convergeStub 0 _ _ _ (by norm_num [cfgGrow])
  have htr : (naturalRun cfgGrow convergeStub 3 (⟨0, 0⟩ : Point ℚ) 2 0).2.1 =
      [growStep cfgGrow 2, growStep cfgGrow (growStep cfgGrow 2)] := by
    rw [e1, e2, e3]
  exact stepSize_stays_in_bounds cfgGrow convergeStub
    (by norm_num [cfgGrow]) (by norm_num [cfgGrow]) (by norm_num [cfgGrow])
    (by norm_num [cfgGrow]) 3 ⟨0, 0⟩ 2 0 (by norm_num [cfgGrow])
    (by norm_num [cfgGrow]) (growStep cfgGrow 2)
    (by rw [htr]; exact List.Mem.head _)

/-- Claim C3: in natural mode the predictor returns the candidate with
`λ_new = λ_prev + Δ` and initial guess `u_new = u_prev`; consequently
every point the driver accepts from a state `(prev, Δ)` has parameter
`λ_prev + Δ` (the corrector holds `λ` fixed at the predicted value). -/
theorem natural_predictor_contract {U : Type} (prev : Point U) (d : ℚ) :
    predictNatural prev d = ⟨prev.u, prev.lam + d⟩ ∧
    ∀ (cfg : Config) (correct : U → ℚ → CorrectorResult U)
      (p : Point U) (d' : ℚ),
      driverStep cfg correct prev d = .accepted p d' →
      p.lam = prev.lam + d := by
  refine ⟨rfl, fun cfg correct p d' h => ?_⟩
  rw [(driverStep_accepted_inv h).1]

/-- Witness for C3 at a concrete state and a concrete accepted step. -/
theorem natural_predictor_contract_witness :
    predictNatural (⟨2, 3⟩ : Point ℚ) 2 = ⟨2, 3 + 2⟩ ∧
    (Point.mk (5 : ℚ) (3 + 2)).lam = 3 + 2 := by
  refine ⟨(natural_predictor_contract (⟨2, 3⟩ : Point ℚ) 2).1, ?_⟩
  exact (natural_predictor_contract (⟨2, 3⟩ : Point ℚ) 2).2 cfgGrow
    (fun _ _ => ⟨true, 1, 5⟩) ⟨5, 3 + 2⟩ (growStep cfgGrow 2) rfl

theorem newtonLoop_never_below_tol {U : Type} (P : Problem U)
    (lam tol : ℚ) (hres : ∀ u, tol ≤ P.norm (P.residual u lam)) :
    ∀ (budget : ℕ) (u : U) (k : ℕ),
      (newtonLoop P lam tol budget u k).converged = false := by
  intro budget
  induction budget with
  | zero =>
    intro u k
    simp [newtonLoop, not_lt.2 (hres u)]
  | succ n ih =>
    intro u k
    rw [newtonLoop]
    rw [if_neg (not_lt.2 (hres u))]
    exact ih _ _

/-- Claim C4: a correction attempt whose residual norm never falls below
the tolerance returns a `CorrectorResult` with `converged = false`
(no exception is raised — the function is total), and the driver reacts
to any non-converged result by shrinking the step and retrying, or by
stopping with step-size exhaustion when `Δ` is already at `Δ_min`; it
never accepts the point, so no non-convergence is dropped. -/
theorem nonconvergence_reported_and_retried {U : Type} (P : Problem U)
    (lam tol : ℚ) (maxIter : ℕ) (u0 : U)
    (hres : ∀ u, tol ≤ P.norm (P.residual u lam)) :
    (newtonCorrect P maxIter tol u0 lam).converged = false ∧
    ∀ (cfg : Config) (correct : U → ℚ → CorrectorResult U)
      (prev : Point U) (d : ℚ),
      (correct prev.u (prev.lam + d)).converged = false →
      driverStep cfg correct prev d =
        (if d ≤ cfg.stepMin then .exhausted
         else .retry (shrinkStep cfg d)) := by
  constructor
  · exact newtonLoop_never_below_tol P lam tol hres maxIter u0 0
  · intro cfg correct prev d hc
    simp only [driverStep, predictNatural]
    rw [if_neg (by simp [hc])]

/-- Witness for C4: a residual identically 1 with tolerance 1/2 never
converges, and with `Δ = 2` above `Δ_min = 1` the driver shrinks and
retries. -/
theorem nonconvergence_reported_and_retried_witness :
    (newtonCorrect oneProblem 3 (1/2) 0 0).converged = false ∧
    driverStep cfgGrow (fun u _ => ⟨false, 3, u⟩) ⟨(0 : ℚ), 0⟩ 2 =
      .retry (shrinkStep cfgGrow 2) := by
  have h := nonconvergence_reported_and_retried oneProblem 0 (1/2) 3 0
    (fun u => by norm_num [oneProblem])
  refine ⟨h.1, ?_⟩
  rw [h.2 cfgGrow (fun u _ => ⟨false, 3, u⟩) ⟨(0 : ℚ), 0⟩ 2 rfl]
  rw [if_neg (by norm_num [cfgGrow] : ¬ ((2 : ℚ) ≤ cfgGrow.stepMin))]

theorem driverStep_notConverged {U : Type} {cfg : Config}
    {correct : U → ℚ → CorrectorResult U} {prev : Point U} {d : ℚ}
    (hc : (correct prev.u (prev.lam + d)).converged = false) :
    driverStep cfg correct prev d =
      (if d ≤ cfg.stepMin then .exhausted
       else .retry (shrinkStep cfg d)) := by
  simp only [driverStep, predictNatural]
  rw [if_neg (by simp [hc])]

theorem naturalRun_retry {U : Type} (cfg : Config)
    (correct : U → ℚ → CorrectorResult U) (fuel : ℕ) (prev : Point U)
    (d d' : ℚ) (steps : ℕ)
    (hguard : ¬ cfg.maxSteps ≤ steps)
    (hstep : driverStep cfg correct prev d = .retry d') :
    naturalRun cfg correct (fuel + 1) prev d steps =
      ((naturalRun cfg correct fuel prev d' steps).1,
       d' :: (naturalRun cfg correct fuel prev d' steps).2.1,
       (naturalRun cfg correct fuel prev d' steps).2.2) := by
  rw [naturalRun, if_neg hguard, hstep]

theorem naturalRun_exhaust {U : Type} (cfg : Config)
    (correct : U → ℚ → CorrectorResult U) (fuel : ℕ) (prev : Point U)
    (d : ℚ) (steps : ℕ)
    (hguard : ¬ cfg.maxSteps ≤ steps)
    (hstep : driverStep cfg correct prev d = .exhausted) :
    naturalRun cfg correct (fuel + 1) prev d steps =
      ([], [], .stepSizeExhausted) := by
  rw [naturalRun, if_neg hguard, hstep]

theorem neverConverge_aux {U : Type} (cfg : Config)
    (correct : U → ℚ → CorrectorResult U)
    (hnc : ∀ u lam, (correct u lam).converged = false)
    (hms : 0 < cfg.maxSteps) (hmin : 0 < cfg.stepMin)
    (hs0 : 0 ≤ cfg.shrinkFactor) (hs1 : cfg.shrinkFactor ≤ 1) :
    ∀ (n : ℕ) (d : ℚ) (fuel : ℕ) (prev : Point U),
      d * cfg.shrinkFactor ^ n ≤ cfg.stepMin → n < fuel →
      (naturalRun cfg correct fuel prev d 0).1 = [] ∧
      (naturalRun cfg correct fuel prev d 0).2.2 = .stepSizeExhausted := by
  intro n
  induction n with
  | zero =>
    intro d fuel prev hd hf
    rcases fuel with _ | f
    · omega
    have hd' : d ≤ cfg.stepMin := by simpa using hd
    rw [naturalRun_exhaust cfg correct f prev d 0 (by omega)
      (by rw [driverStep_notConverged (hnc _ _), if_pos hd'])]
    exact ⟨rfl, rfl⟩
  | succ n ih =>
    intro d fuel prev hd hf
    rcases fuel with _ | f
    · omega
    by_cases hdm : d ≤ cfg.stepMin
    · rw [naturalRun_exhaust cfg correct f prev d 0 (by omega)
        (by rw [driverStep_notConverged (hnc _ _), if_pos hdm])]
      exact ⟨rfl, rfl⟩
    · rw [naturalRun_retry cfg correct f prev d (shrinkStep cfg d) 0
        (by omega)
        (by rw [driverStep_notConverged (hnc _ _), if_neg hdm])]
      have hb : shrinkStep cfg d * cfg.shrinkFactor ^ n ≤ cfg.stepMin := by
        unfold shrinkStep
        split
        · exact mul_le_of_le_one_right hmin.le (pow_le_one₀ hs0 hs1)
        · calc d * cfg.shrinkFactor * cfg.shrinkFactor ^ n
              = d * cfg.shrinkFactor ^ (n + 1) := by ring
            _ ≤ cfg.stepMin := hd
      have hrec := ih (shrinkStep cfg d) f prev hb (by omega)
      exact ⟨hrec.1, hrec.2⟩

/-- Claim C2: for every corrector that never converges, the driver
terminates: there is a fuel bound past which the run accepts no point
and stops with the `stepSizeExhausted` status — the step size is shrunk
on each failure until it reaches `Δ_min`, and the next failure at
`Δ_min` fails the run, so the driver never loops indefinitely. -/
theorem neverConverge_exhausts_stepSize {U : Type} (cfg : Config)
    (correct : U → ℚ → CorrectorResult U) (p0 : Point U) (d0 : ℚ)
    (hnc : ∀ u lam, (correct u lam).converged = false)
    (hms : 0 < cfg.maxSteps) (hmin : 0 < cfg.stepMin) (hd0 : 0 < d0)
    (hs0 : 0 < cfg.shrinkFactor) (hs1 : cfg.shrinkFactor < 1) :
    ∃ N, ∀ fuel, N ≤ fuel →
      (naturalRun cfg correct fuel p0 d0 0).1 = [] ∧
      (naturalRun cfg correct fuel p0 d0 0).2.2 = .stepSizeExhausted := by
  obtain ⟨n, hn⟩ := exists_pow_lt_of_lt_one (div_pos hmin hd0) hs1
  refine ⟨n + 1, fun fuel hf => ?_⟩
  have hb : d0 * cfg.shrinkFactor ^ n ≤ cfg.stepMin := by
    have h1 : cfg.shrinkFactor ^ n * d0 < cfg.stepMin :=
      (lt_div_iff₀ hd0).1 hn
    nlinarith [h1]
  exact neverConverge_aux cfg correct hnc hms hmin hs0.le hs1.le n d0 fuel
    p0 hb (by omega)

/-- Witness for C2: a concrete never-converging corrector under a
concrete configuration admits a fuel bound past which the run is empty
and reports step-size exhaustion. -/
theorem neverConverge_exhausts_stepSize_witness :
    ∃ N, ∀ fuel, N ≤ fuel →
      (naturalRun cfgRestart (fun u _ => ⟨false, 1, u⟩) fuel
        (⟨0, 0⟩ : Point ℚ) (1/10) 0).1 = [] ∧
      (naturalRun cfgRestart (fun u _ => ⟨false, 1, u⟩) fuel
        (⟨0, 0⟩ : Point ℚ) (1/10) 0).2.2 = .stepSizeExhausted :=
  neverConverge_exhausts_stepSize cfgRestart (fun u _ => ⟨false, 1, u⟩)
    ⟨0, 0⟩ (1/10) (fun _ _ => rfl) (by norm_num [cfgRestart])
    (by norm_num [cfgRestart]) (by norm_num)
    (by norm_num [cfgRestart]) (by norm_num [cfgRestart])

theorem normalizeTangent_inner_eq_one {U : Type} (inner : U → U → ℚ)
    (smul : ℚ → U → U)
    (hquad : ∀ (c : ℚ) (v : U),
      inner (smul c v) (smul c v) = c ^ 2 * inner v v)
    (t : Tangent U) (n : ℚ)
    (hn : n ^ 2 = tangentInner inner t t) (h0 : n ≠ 0) :
    tangentInner inner (normalizeTangent smul n t)
      (normalizeTangent smul n t) = 1 := by
  unfold tangentInner at hn
  unfold tangentInner normalizeTangent
  dsimp only
  rw [hquad]
  field_simp
  linear_combination (n * n) * hn.symm

/-- Claim C5: in pseudo-arclength mode, every stored tangent — each one
recomputed from the augmented linear solve at an accepted point and
re-normalized by the caller-supplied norm — has arclength-weighted norm
equal to 1 (stated as the arclength inner product of the tangent with
itself being exactly 1, which in the exact-arithmetic model is the
unit-norm property); this holds for every tangent ever stored. -/
theorem storedTangent_unit_norm {U : Type} (inner : U → U → ℚ)
    (smul : ℚ → U → U) (solveT : Point U → Tangent U)
    (normT : Tangent U → ℚ)
    (hquad : ∀ (c : ℚ) (v : U),
      inner (smul c v) (smul c v) = c ^ 2 * inner v v)
    (hnorm : ∀ p : Point U,
      normT (solveT p) ^ 2 = tangentInner inner (solveT p) (solveT p))
    (hpos : ∀ p : Point U, 0 < normT (solveT p))
    (pts : List (Point U)) :
    ∀ t ∈ storedTangents smul solveT normT pts,
      tangentInner inner t t = 1 := by
  intro t ht
  rcases List.mem_map.1 ht with ⟨p, hp, rfl⟩
  exact normalizeTangent_inner_eq_one inner smul hquad (solveT p)
    (normT (solveT p)) (hnorm p) (ne_of_gt (hpos p))

/-- Witness for C5: the tangent `(3, 4)` with caller-supplied norm 5,
stored after one accepted point, has arclength inner product 1. -/
theorem storedTangent_unit_norm_witness :
    tangentInner (fun x y : ℚ => x * y)
      (normalizeTangent (fun c v : ℚ => c * v) 5 ⟨3, 4⟩)
      (normalizeTangent (fun c v : ℚ => c * v) 5 ⟨3, 4⟩) = 1 :=
  storedTangent_unit_norm (fun x y => x * y) (fun c v => c * v)
    (fun _ => ⟨3, 4⟩) (fun _ => 5)
    (fun c v => by ring) (fun p => by norm_num [tangentInner])
    (fun p => by norm_num) [⟨0, 0⟩]
    (normalizeTangent (fun c v : ℚ => c * v) 5 ⟨3, 4⟩)
    (List.Mem.head _)

/-- Claim C6: for a pair of consecutive accepted points, the Bifurcation
Monitor emits an event bracketing `(point_prev, point_new)` exactly when
the previous test-function value is defined and the sign of the new
value differs from it; when the previous value is undefined or the
signs agree, no event is emitted. -/
theorem bifurcation_event_iff_sign_flip {U : Type} (gPrev : Option ℚ)
    (pPrev pNew : Point U) (gNew : ℚ) :
    ((monitorStep gPrev pPrev pNew gNew).1 = some ⟨pPrev, pNew⟩ ↔
      ∃ g, gPrev = some g ∧ qsign gNew ≠ qsign g) ∧
    ((monitorStep gPrev pPrev pNew gNew).1 = none ↔
      gPrev = none ∨ ∃ g, gPrev = some g ∧ qsign gNew = qsign g) := by
  rcases gPrev with _ | g
  · simp [monitorStep]
  · by_cases h : qsign gNew = qsign g <;> simp [monitorStep, h]

/-! ### The linear test problem -/

theorem newtonCorrect_lin (m : ℕ) (u lam tol : ℚ) (htol : 0 < tol)
    (hfar : ¬ (linProblem.norm (linProblem.residual u lam) < tol)) :
    newtonCorrect linProblem (m + 1) tol u lam = ⟨true, 1, lam⟩ := by
  unfold newtonCorrect
  rw [newtonLoop, if_neg hfar]
  have hsub : linProblem.sub u
      (linProblem.solveJacobian u lam (linProblem.residual u lam)) = lam := by
    show u - (u - lam) = lam
    ring
  rw [hsub]
  have hconv : linProblem.norm (linProblem.residual lam lam) < tol := by
    show (if lam - lam < 0 then -(lam - lam) else lam - lam) < tol
    rw [sub_self, if_neg (lt_irrefl (0 : ℚ))]
    exact htol
  cases m with
  | zero =>
    rw [newtonLoop, decide_eq_true hconv]
  | succ m' =>
    rw [newtonLoop, if_pos hconv]

theorem driverStep_lin (cfg : Config) (prev : Point ℚ) (d : ℚ) (m : ℕ)
    (hm : cfg.correctorMaxIter = m + 1) (htol : 0 < cfg.correctorTol)
    (hit : 1 ≤ cfg.targetIter)
    (hfar : ¬ (linProblem.norm
      (linProblem.residual prev.u (prev.lam + d)) < cfg.correctorTol)) :
    driverStep cfg
      (newtonCorrect linProblem cfg.correctorMaxIter cfg.correctorTol)
      prev d =
      .accepted ⟨prev.lam + d, prev.lam + d⟩ (growStep cfg d) := by
  have hc : newtonCorrect linProblem cfg.correctorMaxIter
      cfg.correctorTol prev.u (prev.lam + d) = ⟨true, 1, prev.lam + d⟩ := by
    rw [hm]
    exact newtonCorrect_lin m prev.u (prev.lam + d) cfg.correctorTol htol hfar
  simp only [driverStep, predictNatural]
  simp only [hc]
  simp [hit]

theorem naturalRun_lin_accept (cfg : Config) (fuel : ℕ) (x d : ℚ)
    (steps m : ℕ)
    (hm : cfg.correctorMaxIter = m + 1) (htol : 0 < cfg.correctorTol)
    (hit : 1 ≤ cfg.targetIter) (hguard : ¬ cfg.maxSteps ≤ steps)
    (hbound : cfg.lamMax = none)
    (hfar : ¬ (linProblem.norm
      (linProblem.residual x (x + d)) < cfg.correctorTol)) :
    naturalRun cfg
      (newtonCorrect linProblem cfg.correctorMaxIter cfg.correctorTol)
      (fuel + 1) ⟨x, x⟩ d steps =
      ((⟨x + d, x + d⟩ : Point ℚ) ::
        (naturalRun cfg
          (newtonCorrect linProblem cfg.correctorMaxIter cfg.correctorTol)
          fuel ⟨x + d, x + d⟩ (growStep cfg d) (steps + 1)).1,
       growStep cfg d ::
        (naturalRun cfg
          (newtonCorrect linProblem cfg.correctorMaxIter cfg.correctorTol)
          fuel ⟨x + d, x + d⟩ (growStep cfg d) (steps + 1)).2.1,
       (naturalRun cfg
          (newtonCorrect linProblem cfg.correctorMaxIter cfg.correctorTol)
          fuel ⟨x + d, x + d⟩ (growStep cfg d) (steps + 1)).2.2) :=
  naturalRun_accept cfg _ fuel ⟨x, x⟩ ⟨x + d, x + d⟩ d (growStep cfg d)
    steps hguard (driverStep_lin cfg ⟨x, x⟩ d m hm htol hit hfar) hbound

theorem linRun_aux : ∀ (k : ℕ) (x : ℚ) (steps : ℕ),
    steps + k = cfgLinear.maxSteps →
    naturalRun cfgLinear
      (newtonCorrect linProblem cfgLinear.correctorMaxIter
        cfgLinear.correctorTol)
      (k + 1) ⟨x, x⟩ (1/10) steps =
      (linPoints x k, List.replicate k (1/10), .maxStepsReached)
  | 0, x, steps, h => by
    rw [naturalRun_stop _ _ 0 _ _ _ (le_of_eq (by omega))]
    rfl
  | k + 1, x, steps, h => by
    have grw : growStep cfgLinear (1/10) = 1/10 := by
      norm_num [growStep, cfgLinear]
    rw [naturalRun_lin_accept cfgLinear (k + 1) x (1/10) steps 4 rfl
      (by norm_num [cfgLinear]) (by norm_num [cfgLinear]) (by omega) rfl
      (by show ¬ ((if x - (x + 1/10) < 0 then -(x - (x + 1/10))
            else x - (x + 1/10)) < cfgLinear.correctorTol)
          rw [show x - (x + 1/10) = -(1/10) by ring]
          norm_num [cfgLinear])]
    rw [grw, linRun_aux k (x + 1/10) (steps + 1) (by omega)]
    rfl

theorem linPoints_length : ∀ (k : ℕ) (x : ℚ), (linPoints x k).length = k
  | 0, _ => rfl
  | k + 1, x => by
    rw [linPoints, List.length_cons, linPoints_length k (x + 1/10)]

theorem linPoints_diag : ∀ (k : ℕ) (x : ℚ),
    ∀ p ∈ linPoints x k, p.u = p.lam
  | 0, _ => by intro p hp; simp [linPoints] at hp
  | k + 1, x => by
    intro p hp
    rw [linPoints] at hp
    rcases List.mem_cons.1 hp with rfl | hp'
    · rfl
    · exact linPoints_diag k (x + 1/10) p hp'

theorem linPoints_last_mem : ∀ (k : ℕ) (x : ℚ),
    (⟨x + ((k : ℚ) + 1) * (1/10), x + ((k : ℚ) + 1) * (1/10)⟩ : Point ℚ) ∈
      linPoints x (k + 1)
  | 0, x => by
    have hx : x + (((0 : ℕ) : ℚ) + 1) * (1/10) = x + 1/10 := by norm_num
    rw [hx]
    exact List.Mem.head _
  | k + 1, x => by
    have hx : x + (((k + 1 : ℕ) : ℚ) + 1) * (1/10) =
        (x + 1/10) + ((k : ℚ) + 1) * (1/10) := by push_cast; ring
    rw [hx]
    exact List.mem_cons_of_mem _ (linPoints_last_mem k (x + 1/10))

/-- Claim C7: on the one-dimensional linear problem `f(u, λ) = u − λ`,
natural continuation from `(0, 0)` with fixed step `Δ = 1/10` accepts
exactly 10 points, reaches the point `(1, 1)` with `λ = 1`, and every
accepted point satisfies `u = λ` to within the corrector tolerance. -/
theorem linear_problem_ten_steps :
    (naturalRun cfgLinear
      (newtonCorrect linProblem cfgLinear.correctorMaxIter
        cfgLinear.correctorTol) 11 ⟨0, 0⟩ (1/10) 0).2.2 =
      .maxStepsReached ∧
    (naturalRun cfgLinear
      (newtonCorrect linProblem cfgLinear.correctorMaxIter
        cfgLinear.correctorTol) 11 ⟨0, 0⟩ (1/10) 0).1.length = 10 ∧
    (⟨1, 1⟩ : Point ℚ) ∈
      (naturalRun cfgLinear
        (newtonCorrect linProblem cfgLinear.correctorMaxIter
          cfgLinear.correctorTol) 11 ⟨0, 0⟩ (1/10) 0).1 ∧
    ∀ p ∈ (naturalRun cfgLinear
      (newtonCorrect linProblem cfgLinear.correctorMaxIter
        cfgLinear.correctorTol) 11 ⟨0, 0⟩ (1/10) 0).1,
      linProblem.norm (p.u - p.lam) < cfgLinear.correctorTol := by
  have h : naturalRun cfgLinear
      (newtonCorrect linProblem cfgLinear.correctorMaxIter
        cfgLinear.correctorTol) 11 ⟨0, 0⟩ (1/10) 0 =
      (linPoints 0 10, List.replicate 10 (1/10), .maxStepsReached) :=
    linRun_aux 10 0 0 rfl
  rw [h]
  refine ⟨rfl, linPoints_length 10 0, ?_, ?_⟩
  · have hm := linPoints_last_mem 9 0
    have hx : (0 : ℚ) + (((9 : ℕ) : ℚ) + 1) * (1/10) = 1 := by norm_num
    rw [hx] at hm
    exact hm
  · intro p hp
    have hd := linPoints_diag 10 0 p hp
    rw [hd, sub_self]
    show (if (0 : ℚ) < 0 then -(0 : ℚ) else 0) < cfgLinear.correctorTol
    rw [if_neg (lt_irrefl (0 : ℚ))]
    norm_num [cfgLinear]

/-! ### Restart behaviour -/

theorem driverStep_budget_irrel {U : Type} (cfg : Config) (n : ℕ)
    (correct : U → ℚ → CorrectorResult U) (prev : Point U) (d : ℚ) :
    driverStep { cfg with maxSteps := n } correct prev d =
      driverStep cfg correct prev d := rfl

theorem naturalRun_accept_raw {U : Type} (cfg : Config)
    (correct : U → ℚ → CorrectorResult U) (fuel : ℕ) (prev p : Point U)
    (d d' : ℚ) (steps : ℕ)
    (hguard : ¬ cfg.maxSteps ≤ steps)
    (hstep : driverStep cfg correct prev d = .accepted p d') :
    naturalRun cfg correct (fuel + 1) prev d steps =
      (if (match cfg.lamMax with
            | some b => decide (b ≤ p.lam)
            | none => false) = true then
        ([p], [d'], .parameterBoundReached)
       else
        (p :: (naturalRun cfg correct fuel p d' (steps + 1)).1,
         d' :: (naturalRun cfg correct fuel p d' (steps + 1)).2.1,
         (naturalRun cfg correct fuel p d' (steps + 1)).2.2)) := by
  rw [naturalRun, if_neg hguard, hstep]

theorem naturalRun_budget_shift {U : Type} (cfg : Config)
    (correct : U → ℚ → CorrectorResult U) (n : ℕ) :
    ∀ (fuel : ℕ) (prev : Point U) (d : ℚ) (a b : ℕ),
      cfg.maxSteps - a = n - b → (a < cfg.maxSteps ↔ b < n) →
      naturalRun cfg correct fuel prev d a =
        naturalRun { cfg with maxSteps := n } correct fuel prev d b := by
  intro fuel
  induction fuel with
  | zero => intro prev d a b h1 h2; rfl
  | succ f ih =>
    intro prev d a b h1 h2
    by_cases hga : cfg.maxSteps ≤ a
    · have hgb : ({ cfg with maxSteps := n } : Config).maxSteps ≤ b := by
        show n ≤ b
        omega
      rw [naturalRun_stop cfg correct f prev d a hga,
          naturalRun_stop _ correct f prev d b hgb]
    · have hgb : ¬ ({ cfg with maxSteps := n } : Config).maxSteps ≤ b := by
        show ¬ n ≤ b
        omega
      cases hstep : driverStep cfg correct prev d with
      | accepted p d' =>
        have hstep' : driverStep { cfg with maxSteps := n } correct prev d
            = .accepted p d' :=
          (driverStep_budget_irrel cfg n correct prev d).trans hstep
        rw [naturalRun_accept_raw cfg correct f prev p d d' a hga hstep,
            naturalRun_accept_raw _ correct f prev p d d' b hgb hstep',
            show ({ cfg with maxSteps := n } : Config).lamMax = cfg.lamMax
              from rfl]
        by_cases hc : (match cfg.lamMax with
            | some bd => decide (bd ≤ p.lam)
            | none => false) = true
        · rw [if_pos hc, if_pos hc]
        · rw [if_neg hc, if_neg hc,
              ih p d' (a + 1) (b + 1) (by omega) (by omega)]
      | retry d' =>
        have hstep' : driverStep { cfg with maxSteps := n } correct prev d
            = .retry d' :=
          (driverStep_budget_irrel cfg n correct prev d).trans hstep
        rw [naturalRun_retry cfg correct f prev d d' a hga hstep,
            naturalRun_retry _ correct f prev d d' b hgb hstep',
            ih prev d' a b h1 h2]
      | exhausted =>
        have hstep' : driverStep { cfg with maxSteps := n } correct prev d
            = .exhausted :=
          (driverStep_budget_irrel cfg n correct prev d).trans hstep
        rw [naturalRun_exhaust cfg correct f prev d a hga hstep,
            naturalRun_exhaust _ correct f prev d b hgb hstep']

/-- Claim C8 (amended): restarting the driver from a mid-run state does
reproduce the remaining trajectory, provided the restart carries over
the driver state at that point — the step size `d` then in effect and
the remaining step budget `max_steps − steps` — rather than the fresh
`step0` and full `max_steps` of the identical configuration. -/
theorem restart_reproduces_with_carried_state {U : Type} (cfg : Config)
    (correct : U → ℚ → CorrectorResult U) (fuel : ℕ) (p : Point U)
    (d : ℚ) (steps : ℕ) :
    naturalRun cfg correct fuel p d steps =
      naturalRun { cfg with maxSteps := cfg.maxSteps - steps } correct
        fuel p d 0 :=
  naturalRun_budget_shift cfg correct (cfg.maxSteps - steps) fuel p d
    steps 0 (by omega) (by omega)

theorem restartRun_two (x : ℚ) :
    (naturalRun cfgRestart
      (newtonCorrect linProblem cfgRestart.correctorMaxIter
        cfgRestart.correctorTol) 3 ⟨x, x⟩ (1/10) 0).1 =
      [⟨x + 1/10, x + 1/10⟩, ⟨x + 1/10 + 1/5, x + 1/10 + 1/5⟩] := by
  have grw1 : growStep cfgRestart (1/10) = 1/5 := by
    norm_num [growStep, cfgRestart]
  have grw2 : growStep cfgRestart (1/5) = 2/5 := by
    norm_num [growStep, cfgRestart]
  rw [naturalRun_lin_accept cfgRestart 2 x (1/10) 0 4 rfl
    (by norm_num [cfgRestart]) (by norm_num [cfgRestart])
    (by norm_num [cfgRestart]) rfl
    (by show ¬ ((if x - (x + 1/10) < 0 then -(x - (x + 1/10))
          else x - (x + 1/10)) < cfgRestart.correctorTol)
        rw [show x - (x + 1/10) = -(1/10) by ring]
        norm_num [cfgRestart])]
  rw [grw1]
  rw [naturalRun_lin_accept cfgRestart 1 (x + 1/10) (1/5) (0 + 1) 4 rfl
    (by norm_num [cfgRestart]) (by norm_num [cfgRestart])
    (by norm_num [cfgRestart]) rfl
    (by show ¬ ((if (x + 1/10) - ((x + 1/10) + 1/5) < 0 then
          -((x + 1/10) - ((x + 1/10) + 1/5))
          else (x + 1/10) - ((x + 1/10) + 1/5)) < cfgRestart.correctorTol)
        rw [show (x + 1/10) - ((x + 1/10) + 1/5) = -(1/5) by ring]
        norm_num [cfgRestart])]
  rw [naturalRun_stop cfgRestart _ 0 _ _ (0 + 1 + 1)
    (by norm_num [cfgRestart])]

/-- Claim C8 as stated is false on the model: the original run from
`(0, 0)` accepts `(1/10, 1/10)` and then `(3/10, 3/10)` (the step
having grown to `1/5`), while restarting from the accepted point
`(1/10, 1/10)` with the identical configuration resets the step to
`step0 = 1/10` and accepts `(1/5, 1/5)` and `(2/5, 2/5)` — a different
subsequent trajectory. -/
theorem restart_identical_config_differs :
    (naturalRun cfgRestart
      (newtonCorrect linProblem cfgRestart.correctorMaxIter
        cfgRestart.correctorTol) 3 ⟨0, 0⟩ (1/10) 0).1 =
      [⟨1/10, 1/10⟩, ⟨3/10, 3/10⟩] ∧
    (naturalRun cfgRestart
      (newtonCorrect linProblem cfgRestart.correctorMaxIter
        cfgRestart.correctorTol) 3 ⟨1/10, 1/10⟩ (1/10) 0).1 =
      [⟨1/5, 1/5⟩, ⟨2/5, 2/5⟩] ∧
    ([⟨3/10, 3/10⟩] : List (Point ℚ)) ≠ [⟨1/5, 1/5⟩, ⟨2/5, 2/5⟩] := by
  refine ⟨?_, ?_, by simp⟩
  · rw [restartRun_two 0]
    norm_num
  · rw [restartRun_two (1/10)]
    norm_num

/-- Claim C9: running `setup.py` fails with `FileNotFoundError` before
`setup()` is invoked when `pacopy/__about__.py` is absent; once the file
is exec-ed, the evaluation of the `setup()` arguments raises `KeyError`
on the first of `__version__`, `__author__`, `__email__`, `__license__`,
`__status__` missing from the dict, and succeeds when all five are
defined. -/
theorem setupPy_about_requirements :
    runSetupPy none = .fileNotFound ∧
    ∀ about : List (String × String),
      (firstMissingKey about = none →
        ∃ args, runSetupPy (some about) = .ok args) ∧
      (∀ k, firstMissingKey about = some k →
        runSetupPy (some about) = .keyError k) := by
  refine ⟨rfl, fun about => ?_⟩
  unfold runSetupPy firstMissingKey
  rcases hv : dictGet about "__version__" with _ | ver <;>
    rcases ha : dictGet about "__author__" with _ | auth <;>
      rcases he : dictGet about "__email__" with _ | em <;>
        rcases hl : dictGet about "__license__" with _ | lic <;>
          rcases hs : dictGet about "__status__" with _ | st <;>
            simp [hv, ha, he, hl, hs]

/-- Witness for C9 at concrete inputs: the absent file gives
`FileNotFoundError`, and a dict defining only `__version__` gives
`KeyError` on `__author__`. -/
theorem setupPy_about_requirements_witness :
    runSetupPy none = .fileNotFound ∧
    runSetupPy (some [("__version__", "0.1.3")]) = .keyError "__author__" := by
  refine ⟨setupPy_about_requirements.1, ?_⟩
  exact (setupPy_about_requirements.2 [("__version__", "0.1.3")]).2
    "__author__" (by decide)

/-- Claim C10: whenever `setup.py` reaches the `setup()` call, the
metadata declares no runtime dependencies and requires Python 3.6 or
newer, independently of the contents of `pacopy/__about__.py`. -/
theorem setupPy_no_deps_python36 :
    ∀ (aboutFile : Option (List (String × String))) (args : SetupArgs),
      runSetupPy aboutFile = .ok args →
      args.installRequires = [] ∧ args.pythonRequires = ">=3.6" := by
  intro aboutFile args h
  unfold runSetupPy at h
  repeat' split at h
  all_goals first
    | exact SetupOutcome.noConfusion h
    | (rw [SetupOutcome.ok.injEq] at h; rw [← h]; exact ⟨rfl, rfl⟩)

/-- Witness for C10 at a concrete fully populated `__about__.py` dict. -/
theorem setupPy_no_deps_python36_witness :
    ∃ args : SetupArgs,
      args.installRequires = [] ∧ args.pythonRequires = ">=3.6" := by
  refine ⟨{ name := "pacopy", version := "0.1.3",
            url := "https://github.com/nschloe/pacopy",
            author := "A", authorEmail := "a@b.c",
            installRequires := [], pythonRequires := ">=3.6",
            description := "Numerical continuation in Python",
            license := "MIT",
            classifiers :=
              ["MIT", "Dev",
               "Operating System :: OS Independent",
               "Programming Language :: Python",
               "Programming Language :: Python :: 3",
               "Topic :: Scientific/Engineering",
               "Topic :: Scientific/Engineering :: Mathematics"] }, ?_⟩
  exact setupPy_no_deps_python36
    (some [("__version__", "0.1.3"), ("__author__", "A"),
           ("__email__", "a@b.c"), ("__license__", "MIT"),
           ("__status__", "Dev")]) _ (by decide)

end Pacopy
